import Mathlib

/-!
Verification development for the incremental Game of Life engine in
`game-of-life.ts` (class `World`, with `giveLife` / `takeLife` /
`incrementNeighbours` / `initNeighbourCounts` / `neighbourCount` /
`isAlive` / `tick`).

Embedding conventions:
* A point `p : Point` is the pair `(x, y)` mirroring the source's
  `{x, y}` records (`p.1 = p.x`, `p.2 = p.y`).
* The source's 2-D arrays `state[y][x]` and `neighbourCounts[y][x]` are
  modelled as functions of `(row, col)`: `state r c` is `state[r][c]`.
  Cells the source never writes (outside the allocated rectangle) are
  modelled as `0`, matching the fact that `!!undefined` is `false` and
  that no out-of-range slot of `state` is ever read by the engine.
* Cell values are `Nat` (the source stores `0`, `1`, or `age + 1`);
  neighbour counts are `Int` (the source both increments and decrements
  them with `+=`).
* The random generator `() => (Math.random() <= 0.08) ? 1 : 0` is an
  impure per-cell producer of numbers; it is modelled as an arbitrary
  function `gen : Nat → Nat → Nat` giving the value stored at
  `state[r][c]` by `generateGrid`.
-/

/-- A coordinate pair `(x, y)`, mirroring the source's `{x, y}` records. -/
abbrev Point := Nat × Nat

/-- `updState g r c v` is the source assignment `state[r][c] = v` on the
state grid viewed as a function of `(row, col)`. -/
def updState (g : Nat → Nat → Nat) (r c v : Nat) : Nat → Nat → Nat :=
  fun a b => if a = r ∧ b = c then v else g a b

/-- `incCount g r c d` is the source statement `neighbourCounts[r][c] += d`. -/
def incCount (g : Nat → Nat → Int) (r c : Nat) (d : Int) : Nat → Nat → Int :=
  fun a b => if a = r ∧ b = c then g a b + d else g a b

/-- The `World` class of `game-of-life.ts`: dimensions, the generation
counter `age`, the `width×height` cell-state grid and the padded
`(width+2)×(height+2)` neighbour-count grid. -/
structure World where
  width : Nat
  height : Nat
  age : Nat
  state : Nat → Nat → Nat
  neighbourCounts : Nat → Nat → Int

/-- `World.incrementNeighbours`: after the padding adjustment
`x += 1; y += 1` the source adds `increment` to the eight slots around
padded `(x, y)`; written here at unpadded row/col indices (padded row
`y+1`, so the written rows are `y`, `y+1`, `y+2`), in the source's
statement order (the innermost `incCount` is the first statement). -/
def World.incrementNeighbours (w : World) (x y : Nat) (inc : Int) : World :=
  { w with neighbourCounts :=
      incCount (incCount (incCount (incCount (incCount (incCount (incCount (incCount
        w.neighbourCounts y x inc) y (x+2) inc) (y+2) x inc) (y+2) (x+2) inc)
        y (x+1) inc) (y+2) (x+1) inc) (y+1) x inc) (y+1) (x+2) inc }

/-- `World.isAlive`: `!!this.state[y][x]`. -/
def World.isAlive (w : World) (x y : Nat) : Bool :=
  w.state y x != 0

/-- `World.neighbourCount`: `this.neighbourCounts[y + 1][x + 1]`. -/
def World.neighbourCount (w : World) (x y : Nat) : Int :=
  w.neighbourCounts (y + 1) (x + 1)

/-- `World.giveLife`: increment the eight neighbours of `p`, then
`this.state[p.y][p.x] = this.age + 1`. -/
def World.giveLife (w : World) (p : Point) : World :=
  let w1 := w.incrementNeighbours p.1 p.2 1
  { w1 with state := updState w1.state p.2 p.1 (w1.age + 1) }

/-- `World.takeLife`: decrement the eight neighbours of `p`, then
`this.state[p.y][p.x] = 0`. -/
def World.takeLife (w : World) (p : Point) : World :=
  let w1 := w.incrementNeighbours p.1 p.2 (-1)
  { w1 with state := updState w1.state p.2 p.1 0 }

/-- The row-major cell enumeration of `tick`'s nested loops
(`for y … for x …`). -/
def cellSeq (wd ht : Nat) : List Point :=
  (List.range ht).flatMap (fun y => (List.range wd).map (fun x => (x, y)))

/-- The column-major cell enumeration of `initNeighbourCounts`'s nested
loops (`for x … for y …`). -/
def colSeq (wd ht : Nat) : List Point :=
  (List.range wd).flatMap (fun x => (List.range ht).map (fun y => (x, y)))

/-- The loop body of `initNeighbourCounts`:
`if (this.isAlive(x, y)) this.incrementNeighbours(x, y, 1)`. -/
def World.initStep (acc : World) (p : Point) : World :=
  if acc.isAlive p.1 p.2 then acc.incrementNeighbours p.1 p.2 1 else acc

/-- `World.initNeighbourCounts`: scan every cell (x outer, y inner) and
increment the neighbours of each live cell. -/
def World.initNeighbourCounts (w : World) : World :=
  (colSeq w.width w.height).foldl World.initStep w

/-- The `World` constructor: store the dimensions, fill `state` from the
generator via `generateGrid`, zero the padded neighbour-count grid, then
run `initNeighbourCounts`.  `age` starts at `0`.  (No dimension check of
any kind appears in the source.) -/
def World.create (wd ht : Nat) (gen : Nat → Nat → Nat) : World :=
  let base : World :=
    { width := wd, height := ht, age := 0,
      state := fun r c => if r < ht ∧ c < wd then gen r c else 0,
      neighbourCounts := fun _ _ => 0 }
  base.initNeighbourCounts

/-- The decision scan's `dead` list: cells pushed by
`isAlive && (neighbourCount < 2 || neighbourCount > 3)`, in row-major
scan order. -/
def World.deadList (w : World) : List Point :=
  (cellSeq w.width w.height).filter
    (fun p => w.isAlive p.1 p.2 &&
      (w.neighbourCount p.1 p.2 < 2 || w.neighbourCount p.1 p.2 > 3))

/-- The decision scan's `living` list: cells pushed by
`!isAlive && neighbourCount == 3`, in row-major scan order. -/
def World.livingList (w : World) : List Point :=
  (cellSeq w.width w.height).filter
    (fun p => !w.isAlive p.1 p.2 && w.neighbourCount p.1 p.2 == 3)

/-- The `{births, deaths}` record returned by `tick`. -/
structure WorldChanges where
  births : List Point
  deaths : List Point
deriving DecidableEq

/-- `World.tick`: collect the `living` and `dead` lists against the
pre-tick state (no mutation during the scan), then apply
`giveLife` to every birth, then `takeLife` to every death, bump `age`,
and return `{births: living, deaths: dead}`. -/
def World.tick (w : World) : World × WorldChanges :=
  let living := w.livingList
  let dead := w.deadList
  let w1 := living.foldl World.giveLife w
  let w2 := dead.foldl World.takeLife w1
  ({ w2 with age := w2.age + 1 }, ⟨living, dead⟩)

/-- The sequence of change sets produced by `n` successive `tick` calls. -/
def World.run (w : World) : Nat → List WorldChanges
  | 0 => []
  | n + 1 =>
    let t := w.tick
    t.2 :: t.1.run n

/-- The eight neighbour offsets of a cell, as integer vectors. -/
def offsets : List (Int × Int) :=
  [(-1,-1), (1,-1), (-1,1), (1,1), (0,-1), (0,1), (-1,0), (1,0)]

/-- Whether the integer position `(i, j)` is inside the grid and holds a
live cell. -/
def World.aliveAt (w : World) (i j : Int) : Bool :=
  decide (0 ≤ i) && decide (i < (w.width : Int)) &&
  decide (0 ≤ j) && decide (j < (w.height : Int)) &&
  w.isAlive i.toNat j.toNat

/-- The number of the (at most 8) in-grid neighbouring positions of cell
`(x, y)` whose state is alive, counted from scratch over the eight
offsets; out-of-grid positions contribute nothing. -/
def World.liveNeighbours (w : World) (x y : Nat) : Nat :=
  offsets.countP (fun d => w.aliveAt ((x : Int) + d.1) ((y : Int) + d.2))

/-- The neighbour-count invariant: at every in-grid cell, the stored
neighbour count equals the number of live in-grid neighbours. -/
def CountInv (w : World) : Prop :=
  ∀ x, x < w.width → ∀ y, y < w.height →
    w.neighbourCount x y = (w.liveNeighbours x y : Int)

instance (w : World) : Decidable (CountInv w) := by
  unfold CountInv; infer_instance

/-- Worlds produced by the constructor followed by any number of
completed `tick` calls. -/
inductive Reachable : World → Prop
  | create (wd ht : Nat) (gen : Nat → Nat → Nat) : Reachable (World.create wd ht gen)
  | tick (w : World) : Reachable w → Reachable (w.tick).1

/-- Row-major (scan) order on points: increasing `y`, then increasing `x`. -/
def rowLt (p q : Point) : Prop :=
  p.2 < q.2 ∨ (p.2 = q.2 ∧ p.1 < q.1)

/-- The set of padded slots written by `incrementNeighbours x y`:
rows `y`, `y+1`, `y+2` and columns `x`, `x+1`, `x+2`, except the centre
`(y+1, x+1)`. -/
def writesSlot (x y r c : Nat) : Prop :=
  (r = y ∨ r = y + 1 ∨ r = y + 2) ∧ (c = x ∨ c = x + 1 ∨ c = x + 2) ∧
    ¬(r = y + 1 ∧ c = x + 1)

instance (x y r c : Nat) : Decidable (writesSlot x y r c) := by
  unfold writesSlot; infer_instance

/-- Chebyshev adjacency of the distinct cells `(px, py)` and `(a, b)`. -/
def adjacentCells (px py a b : Nat) : Prop :=
  (px + 1 = a ∨ px = a ∨ px = a + 1) ∧ (py + 1 = b ∨ py = b ∨ py = b + 1) ∧
    ¬(px = a ∧ py = b)

instance (px py a b : Nat) : Decidable (adjacentCells px py a b) := by
  unfold adjacentCells; infer_instance

/-! ### Pointwise effect lemmas for the mutating operations -/

lemma incCount_apply (g : Nat → Nat → Int) (r c : Nat) (d : Int) (a b : Nat) :
    incCount g r c d a b = g a b + (if a = r ∧ b = c then d else 0) := by
  unfold incCount; split_ifs <;> omega

lemma incrementNeighbours_state (w : World) (x y : Nat) (d : Int) :
    (w.incrementNeighbours x y d).state = w.state := rfl

lemma incrementNeighbours_width (w : World) (x y : Nat) (d : Int) :
    (w.incrementNeighbours x y d).width = w.width := rfl

lemma incrementNeighbours_height (w : World) (x y : Nat) (d : Int) :
    (w.incrementNeighbours x y d).height = w.height := rfl

lemma incrementNeighbours_age (w : World) (x y : Nat) (d : Int) :
    (w.incrementNeighbours x y d).age = w.age := rfl

/-- `incrementNeighbours x y d` adds `d` to exactly the eight padded
slots described by `writesSlot x y` and leaves every other slot alone. -/
lemma incrementNeighbours_counts (w : World) (x y : Nat) (d : Int) (r c : Nat) :
    (w.incrementNeighbours x y d).neighbourCounts r c =
      w.neighbourCounts r c + (if writesSlot x y r c then d else 0) := by
  show (incCount (incCount (incCount (incCount (incCount (incCount (incCount (incCount
        w.neighbourCounts y x d) y (x+2) d) (y+2) x d) (y+2) (x+2) d)
        y (x+1) d) (y+2) (x+1) d) (y+1) x d) (y+1) (x+2) d) r c = _
  rw [incCount_apply, incCount_apply, incCount_apply, incCount_apply, incCount_apply,
    incCount_apply, incCount_apply, incCount_apply]
  unfold writesSlot
  split_ifs <;> omega

lemma giveLife_width (w : World) (p : Point) : (w.giveLife p).width = w.width := rfl

lemma giveLife_height (w : World) (p : Point) : (w.giveLife p).height = w.height := rfl

lemma giveLife_age (w : World) (p : Point) : (w.giveLife p).age = w.age := rfl

lemma giveLife_state (w : World) (p : Point) (r c : Nat) :
    (w.giveLife p).state r c =
      if r = p.2 ∧ c = p.1 then w.age + 1 else w.state r c := rfl

lemma giveLife_counts (w : World) (p : Point) (r c : Nat) :
    (w.giveLife p).neighbourCounts r c =
      w.neighbourCounts r c + (if writesSlot p.1 p.2 r c then 1 else 0) :=
  incrementNeighbours_counts w p.1 p.2 1 r c

lemma takeLife_width (w : World) (p : Point) : (w.takeLife p).width = w.width := rfl

lemma takeLife_height (w : World) (p : Point) : (w.takeLife p).height = w.height := rfl

lemma takeLife_age (w : World) (p : Point) : (w.takeLife p).age = w.age := rfl

lemma takeLife_state (w : World) (p : Point) (r c : Nat) :
    (w.takeLife p).state r c =
      if r = p.2 ∧ c = p.1 then 0 else w.state r c := rfl

lemma takeLife_counts (w : World) (p : Point) (r c : Nat) :
    (w.takeLife p).neighbourCounts r c =
      w.neighbourCounts r c + (if writesSlot p.1 p.2 r c then -1 else 0) :=
  incrementNeighbours_counts w p.1 p.2 (-1) r c

lemma mem_cellSeq (wd ht : Nat) (p : Point) : p ∈ cellSeq wd ht ↔ p.1 < wd ∧ p.2 < ht := by
  simp only [cellSeq, List.mem_flatMap, List.mem_map, List.mem_range]
  constructor
  · rintro ⟨y, hy, x, hx, h⟩
    cases h; exact ⟨hx, hy⟩
  · rintro ⟨h1, h2⟩
    exact ⟨p.2, h2, p.1, h1, rfl⟩

lemma mem_colSeq (wd ht : Nat) (p : Point) : p ∈ colSeq wd ht ↔ p.1 < wd ∧ p.2 < ht := by
  simp only [colSeq, List.mem_flatMap, List.mem_map, List.mem_range]
  constructor
  · rintro ⟨x, hx, y, hy, h⟩
    cases h; exact ⟨hx, hy⟩
  · rintro ⟨h1, h2⟩
    exact ⟨p.1, h1, p.2, h2, rfl⟩

lemma cellSeq_succ (wd ht : Nat) :
    cellSeq wd (ht + 1) = cellSeq wd ht ++ (List.range wd).map (fun x => (x, ht)) := by
  unfold cellSeq
  rw [List.range_succ, List.flatMap_append]
  simp

lemma cellSeq_pairwise (wd ht : Nat) : (cellSeq wd ht).Pairwise rowLt := by
  induction ht with
  | zero => simp [cellSeq]
  | succ ht ih =>
    rw [cellSeq_succ, List.pairwise_append]
    refine ⟨ih, ?_, ?_⟩
    · rw [List.pairwise_map]
      refine (List.pairwise_lt_range wd).imp ?_
      intro a b h
      exact Or.inr ⟨rfl, h⟩
    · intro a ha q hq
      simp only [List.mem_map, List.mem_range] at hq
      obtain ⟨x, _, rfl⟩ := hq
      exact Or.inl ((mem_cellSeq wd ht a).mp ha).2

lemma cellSeq_nodup (wd ht : Nat) : (cellSeq wd ht).Nodup := by
  refine (cellSeq_pairwise wd ht).imp ?_
  intro p q h
  unfold rowLt at h
  rintro rfl
  omega

lemma colSeq_succ (wd ht : Nat) :
    colSeq (wd + 1) ht = colSeq wd ht ++ (List.range ht).map (fun y => (wd, y)) := by
  unfold colSeq
  rw [List.range_succ, List.flatMap_append]
  simp

lemma colSeq_nodup (wd ht : Nat) : (colSeq wd ht).Nodup := by
  have hp : (colSeq wd ht).Pairwise (fun p q : Point => p.1 < q.1 ∨ (p.1 = q.1 ∧ p.2 < q.2)) := by
    induction wd with
    | zero => simp [colSeq]
    | succ wd ih =>
      rw [colSeq_succ, List.pairwise_append]
      refine ⟨ih, ?_, ?_⟩
      · rw [List.pairwise_map]
        refine (List.pairwise_lt_range ht).imp ?_
        intro a b h
        exact Or.inr ⟨rfl, h⟩
      · intro a ha q hq
        simp only [List.mem_map, List.mem_range] at hq
        obtain ⟨y, _, rfl⟩ := hq
        exact Or.inl ((mem_colSeq wd ht a).mp ha).1
  refine hp.imp ?_
  intro p q h
  rintro rfl
  omega

lemma length_eq_of_nodup_mem_iff {l m : List Point} (hl : l.Nodup) (hm : m.Nodup)
    (h : ∀ a, a ∈ l ↔ a ∈ m) : l.length = m.length := by
  rw [← List.toFinset_card_of_nodup hl, ← List.toFinset_card_of_nodup hm]
  congr 1
  ext a
  simp only [List.mem_toFinset]
  exact h a

lemma countP_or_disjoint (l : List Point) (p q : Point → Bool)
    (h : ∀ a ∈ l, ¬(p a = true ∧ q a = true)) :
    l.countP (fun a => p a || q a) = l.countP p + l.countP q := by
  induction l with
  | nil => simp
  | cons a l ih =>
    have ha := h a (List.mem_cons_self a l)
    rw [List.countP_cons, List.countP_cons, List.countP_cons,
      ih (fun x hx => h x (List.mem_cons_of_mem a hx))]
    cases hp : p a <;> cases hq : q a <;> simp [hp, hq] at ha ⊢ <;> omega

lemma countP_split (l : List Point) (p q : Point → Bool) :
    l.countP p = l.countP (fun a => p a && q a) + l.countP (fun a => p a && !q a) := by
  induction l with
  | nil => simp
  | cons a l ih =>
    rw [List.countP_cons, List.countP_cons, List.countP_cons, ih]
    cases hp : p a <;> cases hq : q a <;> simp [hp, hq] <;> omega

lemma countP_mem_sub (L B : List Point) (p : Point → Bool) (hL : L.Nodup) (hB : B.Nodup)
    (hsub : ∀ a ∈ B, a ∈ L) :
    L.countP (fun a => decide (a ∈ B) && p a) = B.countP p := by
  rw [List.countP_eq_length_filter, List.countP_eq_length_filter]
  refine length_eq_of_nodup_mem_iff (hL.filter _) (hB.filter _) ?_
  intro a
  simp only [List.mem_filter, Bool.and_eq_true, decide_eq_true_eq]
  constructor
  · rintro ⟨_, hmem, hp⟩
    exact ⟨hmem, hp⟩
  · rintro ⟨hmem, hp⟩
    exact ⟨hsub a hmem, hmem, hp⟩

lemma offsets_nodup : offsets.Nodup := by decide

/-- A padded slot read back by `neighbourCount a b` — row `b+1`, column
`a+1` — receives a write from `incrementNeighbours x y` exactly when the
cells `(x, y)` and `(a, b)` are Chebyshev-adjacent. -/
lemma writesSlot_iff_adjacent (x y a b : Nat) :
    writesSlot x y (b + 1) (a + 1) ↔ adjacentCells x y a b := by
  unfold writesSlot adjacentCells
  omega

lemma mem_offsets_of_adjacent (a b : Nat) (p : Point) (hadj : adjacentCells p.1 p.2 a b) :
    ((p.1 : Int) - a, (p.2 : Int) - b) ∈ offsets := by
  obtain ⟨hx, hy, hne⟩ := hadj
  rcases hx with hx | hx | hx <;> rcases hy with hy | hy | hy
  · rw [show (p.1 : Int) - a = -1 from by omega, show (p.2 : Int) - b = -1 from by omega]
    decide
  · rw [show (p.1 : Int) - a = -1 from by omega, show (p.2 : Int) - b = 0 from by omega]
    decide
  · rw [show (p.1 : Int) - a = -1 from by omega, show (p.2 : Int) - b = 1 from by omega]
    decide
  · rw [show (p.1 : Int) - a = 0 from by omega, show (p.2 : Int) - b = -1 from by omega]
    decide
  · exact absurd ⟨hx, hy⟩ hne
  · rw [show (p.1 : Int) - a = 0 from by omega, show (p.2 : Int) - b = 1 from by omega]
    decide
  · rw [show (p.1 : Int) - a = 1 from by omega, show (p.2 : Int) - b = -1 from by omega]
    decide
  · rw [show (p.1 : Int) - a = 1 from by omega, show (p.2 : Int) - b = 0 from by omega]
    decide
  · rw [show (p.1 : Int) - a = 1 from by omega, show (p.2 : Int) - b = 1 from by omega]
    decide

lemma adjacent_of_mem_offsets (a b : Nat) (d : Int × Int) (hd : d ∈ offsets)
    (h1 : 0 ≤ (a : Int) + d.1) (h2 : 0 ≤ (b : Int) + d.2) :
    adjacentCells (((a : Int) + d.1).toNat) (((b : Int) + d.2).toNat) a b := by
  simp only [offsets, List.mem_cons, List.not_mem_nil, or_false] at hd
  unfold adjacentCells
  rcases hd with rfl | rfl | rfl | rfl | rfl | rfl | rfl | rfl <;>
    refine ⟨?_, ?_, ?_⟩ <;> simp only [] <;> omega

/-- Counting the live adjacent cells over any duplicate-free, complete
enumeration of the grid gives the from-scratch neighbour count
`liveNeighbours`: the map sending an adjacent cell to its offset vector
is a bijection between the two filtered sets. -/
lemma countP_adjacent_eq_liveNeighbours (w : World) (L : List Point) (hnd : L.Nodup)
    (hmem : ∀ p : Point, p ∈ L ↔ p.1 < w.width ∧ p.2 < w.height) (a b : Nat) :
    L.countP (fun p => w.isAlive p.1 p.2 && decide (adjacentCells p.1 p.2 a b)) =
      w.liveNeighbours a b := by
  unfold World.liveNeighbours
  rw [List.countP_eq_length_filter, List.countP_eq_length_filter]
  rw [← List.toFinset_card_of_nodup (hnd.filter _),
    ← List.toFinset_card_of_nodup (offsets_nodup.filter _)]
  refine Finset.card_bij (fun p _ => ((p.1 : Int) - a, (p.2 : Int) - b)) ?_ ?_ ?_
  · intro p hp
    simp only [List.mem_toFinset, List.mem_filter, Bool.and_eq_true, decide_eq_true_eq] at hp
    obtain ⟨hpL, halive, hadj⟩ := hp
    have hin := (hmem p).mp hpL
    show ((p.1 : Int) - a, (p.2 : Int) - b) ∈ (offsets.filter _).toFinset
    simp only [List.mem_toFinset, List.mem_filter]
    refine ⟨mem_offsets_of_adjacent a b p hadj, ?_⟩
    show w.aliveAt ((a : Int) + ((p.1 : Int) - a)) ((b : Int) + ((p.2 : Int) - b)) = true
    rw [show (a : Int) + ((p.1 : Int) - a) = (p.1 : Int) from by omega,
      show (b : Int) + ((p.2 : Int) - b) = (p.2 : Int) from by omega]
    simp only [World.aliveAt, Bool.and_eq_true, decide_eq_true_eq, Int.toNat_natCast]
    refine ⟨⟨⟨⟨by omega, by omega⟩, by omega⟩, by omega⟩, halive⟩
  · intro p1 h1 p2 h2 heq
    simp only [Prod.ext_iff] at heq
    obtain ⟨heq1, heq2⟩ := heq
    refine Prod.ext_iff.mpr ⟨?_, ?_⟩ <;> omega
  · intro d hd
    simp only [List.mem_toFinset, List.mem_filter] at hd
    obtain ⟨hoff, haliveAt⟩ := hd
    simp only [World.aliveAt, Bool.and_eq_true, decide_eq_true_eq] at haliveAt
    obtain ⟨⟨⟨⟨h0i, hiw⟩, h0j⟩, hjh⟩, halive⟩ := haliveAt
    refine ⟨(((a : Int) + d.1).toNat, ((b : Int) + d.2).toNat), ?_, ?_⟩
    · simp only [List.mem_toFinset, List.mem_filter, Bool.and_eq_true, decide_eq_true_eq]
      exact ⟨(hmem _).mpr ⟨by omega, by omega⟩, halive,
        adjacent_of_mem_offsets a b d hoff h0i h0j⟩
    · show ((((a : Int) + d.1).toNat : Int) - a, (((b : Int) + d.2).toNat : Int) - b) = d
      refine Prod.ext_iff.mpr ⟨?_, ?_⟩ <;> omega

/-! ### Effects of folding whole birth/death lists -/

lemma foldl_giveLife_width (B : List Point) (w : World) :
    (B.foldl World.giveLife w).width = w.width := by
  induction B generalizing w with
  | nil => rfl
  | cons p B ih => exact ih (w.giveLife p)

lemma foldl_giveLife_height (B : List Point) (w : World) :
    (B.foldl World.giveLife w).height = w.height := by
  induction B generalizing w with
  | nil => rfl
  | cons p B ih => exact ih (w.giveLife p)

lemma foldl_giveLife_age (B : List Point) (w : World) :
    (B.foldl World.giveLife w).age = w.age := by
  induction B generalizing w with
  | nil => rfl
  | cons p B ih => exact ih (w.giveLife p)

lemma foldl_giveLife_state (B : List Point) (w : World) (r c : Nat) :
    (B.foldl World.giveLife w).state r c =
      if (c, r) ∈ B then w.age + 1 else w.state r c := by
  induction B generalizing w with
  | nil => simp
  | cons p B ih =>
    rw [List.foldl_cons, ih, giveLife_age, giveLife_state]
    by_cases h1 : (c, r) ∈ B
    · rw [if_pos h1, if_pos (List.mem_cons.mpr (Or.inr h1))]
    · rw [if_neg h1]
      by_cases hp : r = p.2 ∧ c = p.1
      · rw [if_pos hp, if_pos (List.mem_cons.mpr (Or.inl (Prod.ext_iff.mpr ⟨hp.2, hp.1⟩)))]
      · rw [if_neg hp, if_neg ?hmem]
        case hmem =>
          intro hmem
          rcases List.mem_cons.mp hmem with he | hm
          · exact hp ⟨(Prod.ext_iff.mp he).2, (Prod.ext_iff.mp he).1⟩
          · exact h1 hm

lemma foldl_giveLife_counts (B : List Point) (w : World) (r c : Nat) :
    (B.foldl World.giveLife w).neighbourCounts r c =
      w.neighbourCounts r c + (B.countP (fun p => decide (writesSlot p.1 p.2 r c)) : Int) := by
  induction B generalizing w with
  | nil => simp
  | cons p B ih =>
    rw [List.foldl_cons, ih, giveLife_counts, List.countP_cons]
    by_cases h : writesSlot p.1 p.2 r c <;> simp [h] <;> push_cast <;> ring

lemma foldl_takeLife_width (D : List Point) (w : World) :
    (D.foldl World.takeLife w).width = w.width := by
  induction D generalizing w with
  | nil => rfl
  | cons p D ih => exact ih (w.takeLife p)

lemma foldl_takeLife_height (D : List Point) (w : World) :
    (D.foldl World.takeLife w).height = w.height := by
  induction D generalizing w with
  | nil => rfl
  | cons p D ih => exact ih (w.takeLife p)

lemma foldl_takeLife_age (D : List Point) (w : World) :
    (D.foldl World.takeLife w).age = w.age := by
  induction D generalizing w with
  | nil => rfl
  | cons p D ih => exact ih (w.takeLife p)

lemma foldl_takeLife_state (D : List Point) (w : World) (r c : Nat) :
    (D.foldl World.takeLife w).state r c =
      if (c, r) ∈ D then 0 else w.state r c := by
  induction D generalizing w with
  | nil => simp
  | cons p D ih =>
    rw [List.foldl_cons, ih, takeLife_state]
    by_cases h1 : (c, r) ∈ D
    · rw [if_pos h1, if_pos (List.mem_cons.mpr (Or.inr h1))]
    · rw [if_neg h1]
      by_cases hp : r = p.2 ∧ c = p.1
      · rw [if_pos hp, if_pos (List.mem_cons.mpr (Or.inl (Prod.ext_iff.mpr ⟨hp.2, hp.1⟩)))]
      · rw [if_neg hp, if_neg ?hmem]
        case hmem =>
          intro hmem
          rcases List.mem_cons.mp hmem with he | hm
          · exact hp ⟨(Prod.ext_iff.mp he).2, (Prod.ext_iff.mp he).1⟩
          · exact h1 hm

lemma foldl_takeLife_counts (D : List Point) (w : World) (r c : Nat) :
    (D.foldl World.takeLife w).neighbourCounts r c =
      w.neighbourCounts r c - (D.countP (fun p => decide (writesSlot p.1 p.2 r c)) : Int) := by
  induction D generalizing w with
  | nil => simp
  | cons p D ih =>
    rw [List.foldl_cons, ih, takeLife_counts, List.countP_cons]
    by_cases h : writesSlot p.1 p.2 r c <;> simp [h] <;> push_cast <;> ring

/-! ### Effects of the construction-time counting scan -/

lemma initStep_state (w : World) (p : Point) : (w.initStep p).state = w.state := by
  unfold World.initStep
  split <;> rfl

lemma initStep_width (w : World) (p : Point) : (w.initStep p).width = w.width := by
  unfold World.initStep
  split <;> rfl

lemma initStep_height (w : World) (p : Point) : (w.initStep p).height = w.height := by
  unfold World.initStep
  split <;> rfl

lemma initStep_age (w : World) (p : Point) : (w.initStep p).age = w.age := by
  unfold World.initStep
  split <;> rfl

lemma initStep_isAlive (w : World) (p : Point) (x y : Nat) :
    (w.initStep p).isAlive x y = w.isAlive x y := by
  unfold World.isAlive
  rw [initStep_state]

lemma initStep_counts (w : World) (p : Point) (r c : Nat) :
    (w.initStep p).neighbourCounts r c =
      w.neighbourCounts r c +
        (if w.isAlive p.1 p.2 && decide (writesSlot p.1 p.2 r c) then 1 else 0) := by
  unfold World.initStep
  cases ha : w.isAlive p.1 p.2 with
  | false => simp [ha]
  | true =>
    rw [if_pos rfl, incrementNeighbours_counts]
    by_cases h : writesSlot p.1 p.2 r c <;> simp [h]

lemma foldl_initStep_state (L : List Point) (w : World) :
    (L.foldl World.initStep w).state = w.state := by
  induction L generalizing w with
  | nil => rfl
  | cons p L ih => rw [List.foldl_cons, ih, initStep_state]

lemma foldl_initStep_width (L : List Point) (w : World) :
    (L.foldl World.initStep w).width = w.width := by
  induction L generalizing w with
  | nil => rfl
  | cons p L ih => rw [List.foldl_cons, ih, initStep_width]

lemma foldl_initStep_height (L : List Point) (w : World) :
    (L.foldl World.initStep w).height = w.height := by
  induction L generalizing w with
  | nil => rfl
  | cons p L ih => rw [List.foldl_cons, ih, initStep_height]

lemma foldl_initStep_age (L : List Point) (w : World) :
    (L.foldl World.initStep w).age = w.age := by
  induction L generalizing w with
  | nil => rfl
  | cons p L ih => rw [List.foldl_cons, ih, initStep_age]

lemma foldl_initStep_counts (L : List Point) (w : World) (r c : Nat) :
    (L.foldl World.initStep w).neighbourCounts r c =
      w.neighbourCounts r c +
        (L.countP (fun p => w.isAlive p.1 p.2 && decide (writesSlot p.1 p.2 r c)) : Int) := by
  induction L generalizing w with
  | nil => simp
  | cons p L ih =>
    rw [List.foldl_cons, ih]
    simp only [initStep_isAlive, initStep_counts, List.countP_cons]
    by_cases h : (w.isAlive p.1 p.2 && decide (writesSlot p.1 p.2 r c)) = true <;>
      simp [h] <;> push_cast <;> ring

/-! ### The invariant holds after construction -/

lemma liveNeighbours_congr (w1 w2 : World) (hw : w1.width = w2.width)
    (hh : w1.height = w2.height) (hst : w1.state = w2.state) :
    w1.liveNeighbours = w2.liveNeighbours := by
  funext a b
  unfold World.liveNeighbours World.aliveAt World.isAlive
  rw [hw, hh, hst]

lemma countP_writesSlot_eq_adjacent (w : World) (L : List Point) (a b : Nat) :
    L.countP (fun p => w.isAlive p.1 p.2 && decide (writesSlot p.1 p.2 (b + 1) (a + 1))) =
      L.countP (fun p => w.isAlive p.1 p.2 && decide (adjacentCells p.1 p.2 a b)) := by
  refine List.countP_congr ?_
  intro q _
  simp only [Bool.and_eq_true, decide_eq_true_eq]
  exact and_congr_right fun _ => writesSlot_iff_adjacent q.1 q.2 a b

lemma initNeighbourCounts_CountInv (w : World)
    (hzero : ∀ r c, w.neighbourCounts r c = 0) : CountInv w.initNeighbourCounts := by
  intro a ha b hb
  unfold World.initNeighbourCounts at ha hb ⊢
  rw [foldl_initStep_width] at ha
  rw [foldl_initStep_height] at hb
  unfold World.neighbourCount
  rw [foldl_initStep_counts, hzero, zero_add]
  have hln : (List.foldl World.initStep w (colSeq w.width w.height)).liveNeighbours =
      w.liveNeighbours :=
    liveNeighbours_congr _ _ (foldl_initStep_width _ _) (foldl_initStep_height _ _)
      (foldl_initStep_state _ _)
  rw [hln, countP_writesSlot_eq_adjacent,
    countP_adjacent_eq_liveNeighbours w (colSeq w.width w.height) (colSeq_nodup _ _)
      (fun p => mem_colSeq _ _ p) a b]

lemma create_width (wd ht : Nat) (gen : Nat → Nat → Nat) :
    (World.create wd ht gen).width = wd := by
  unfold World.create World.initNeighbourCounts
  rw [foldl_initStep_width]

lemma create_height (wd ht : Nat) (gen : Nat → Nat → Nat) :
    (World.create wd ht gen).height = ht := by
  unfold World.create World.initNeighbourCounts
  rw [foldl_initStep_height]

lemma create_age (wd ht : Nat) (gen : Nat → Nat → Nat) :
    (World.create wd ht gen).age = 0 := by
  unfold World.create World.initNeighbourCounts
  rw [foldl_initStep_age]

lemma create_state (wd ht : Nat) (gen : Nat → Nat → Nat) (r c : Nat) :
    (World.create wd ht gen).state r c = if r < ht ∧ c < wd then gen r c else 0 := by
  unfold World.create World.initNeighbourCounts
  rw [foldl_initStep_state]

/-- Post-condition of the constructor: the neighbour-count invariant
holds for the initial state. -/
theorem create_CountInv (wd ht : Nat) (gen : Nat → Nat → Nat) :
    CountInv (World.create wd ht gen) := by
  unfold World.create
  exact initNeighbourCounts_CountInv _ (fun r c => rfl)

/-! ### The decision scan: membership, order, disjointness -/

lemma mem_livingList (w : World) (p : Point) :
    p ∈ w.livingList ↔ p.1 < w.width ∧ p.2 < w.height ∧
      w.isAlive p.1 p.2 = false ∧ w.neighbourCount p.1 p.2 = 3 := by
  unfold World.livingList
  rw [List.mem_filter, mem_cellSeq]
  simp only [Bool.and_eq_true, Bool.not_eq_true', beq_iff_eq]
  tauto

lemma mem_deadList (w : World) (p : Point) :
    p ∈ w.deadList ↔ p.1 < w.width ∧ p.2 < w.height ∧
      w.isAlive p.1 p.2 = true ∧
      (w.neighbourCount p.1 p.2 < 2 ∨ w.neighbourCount p.1 p.2 > 3) := by
  unfold World.deadList
  rw [List.mem_filter, mem_cellSeq]
  simp only [Bool.and_eq_true, Bool.or_eq_true, decide_eq_true_eq]
  tauto

lemma livingList_nodup (w : World) : w.livingList.Nodup :=
  (cellSeq_nodup _ _).filter _

lemma deadList_nodup (w : World) : w.deadList.Nodup :=
  (cellSeq_nodup _ _).filter _

lemma livingList_pairwise (w : World) : w.livingList.Pairwise rowLt :=
  (cellSeq_pairwise _ _).filter _

lemma deadList_pairwise (w : World) : w.deadList.Pairwise rowLt :=
  (cellSeq_pairwise _ _).filter _

lemma living_not_dead (w : World) (p : Point) (hB : p ∈ w.livingList) :
    p ∉ w.deadList := by
  intro hD
  have h1 := (mem_livingList w p).mp hB
  have h2 := (mem_deadList w p).mp hD
  rw [h1.2.2.1] at h2
  exact Bool.false_ne_true h2.2.2.1

/-! ### What one whole tick does to each field -/

lemma tick_fst (w : World) :
    (w.tick).1 =
      { w.deadList.foldl World.takeLife (w.livingList.foldl World.giveLife w) with
        age := (w.deadList.foldl World.takeLife (w.livingList.foldl World.giveLife w)).age + 1 } :=
  rfl

lemma tick_snd (w : World) : (w.tick).2 = ⟨w.livingList, w.deadList⟩ := rfl

lemma tick_width (w : World) : (w.tick).1.width = w.width := by
  rw [tick_fst]
  show (w.deadList.foldl World.takeLife (w.livingList.foldl World.giveLife w)).width = w.width
  rw [foldl_takeLife_width, foldl_giveLife_width]

lemma tick_height (w : World) : (w.tick).1.height = w.height := by
  rw [tick_fst]
  show (w.deadList.foldl World.takeLife (w.livingList.foldl World.giveLife w)).height = w.height
  rw [foldl_takeLife_height, foldl_giveLife_height]

lemma tick_age (w : World) : (w.tick).1.age = w.age + 1 := by
  rw [tick_fst]
  show (w.deadList.foldl World.takeLife (w.livingList.foldl World.giveLife w)).age + 1 = w.age + 1
  rw [foldl_takeLife_age, foldl_giveLife_age]

lemma tick_state (w : World) (r c : Nat) :
    (w.tick).1.state r c =
      if (c, r) ∈ w.deadList then 0
      else if (c, r) ∈ w.livingList then w.age + 1
      else w.state r c := by
  rw [tick_fst]
  show (w.deadList.foldl World.takeLife (w.livingList.foldl World.giveLife w)).state r c = _
  rw [foldl_takeLife_state, foldl_giveLife_state]

lemma tick_counts (w : World) (r c : Nat) :
    (w.tick).1.neighbourCounts r c =
      w.neighbourCounts r c +
        (w.livingList.countP (fun p => decide (writesSlot p.1 p.2 r c)) : Int) -
        (w.deadList.countP (fun p => decide (writesSlot p.1 p.2 r c)) : Int) := by
  rw [tick_fst]
  show (w.deadList.foldl World.takeLife (w.livingList.foldl World.giveLife w)).neighbourCounts r c = _
  rw [foldl_takeLife_counts, foldl_giveLife_counts]

lemma tick_isAlive (w : World) (x y : Nat) :
    (w.tick).1.isAlive x y =
      if (x, y) ∈ w.deadList then false
      else if (x, y) ∈ w.livingList then true
      else w.isAlive x y := by
  unfold World.isAlive
  rw [tick_state]
  by_cases h1 : (x, y) ∈ w.deadList
  · simp [h1]
  · by_cases h2 : (x, y) ∈ w.livingList <;> simp [h1, h2]

/-! ### One tick preserves the neighbour-count invariant -/

lemma tick_isAlive_eq (w : World) (p : Point) :
    (w.tick).1.isAlive p.1 p.2 =
      (decide (p ∈ w.livingList) || (w.isAlive p.1 p.2 && !decide (p ∈ w.deadList))) := by
  rw [tick_isAlive]
  by_cases hD : p ∈ w.deadList
  · rw [if_pos hD]
    have halive := ((mem_deadList w p).mp hD).2.2.1
    have hnB : p ∉ w.livingList := fun hB => living_not_dead w p hB hD
    simp [hnB, hD, halive]
  · rw [if_neg hD]
    by_cases hB : p ∈ w.livingList
    · rw [if_pos hB]
      simp [hB, hD]
    · rw [if_neg hB]
      simp [hB, hD]

lemma countP_writesSlot_eq_adjacent_plain (L : List Point) (a b : Nat) :
    L.countP (fun p => decide (writesSlot p.1 p.2 (b + 1) (a + 1))) =
      L.countP (fun p => decide (adjacentCells p.1 p.2 a b)) :=
  List.countP_congr fun q _ => by
    simp only [decide_eq_true_eq]
    exact writesSlot_iff_adjacent q.1 q.2 a b

/-- The cells alive after a tick, counted against any fixed adjacency
predicate: each death removes one adjacent live cell and each birth adds
one, with no other change. -/
lemma countP_tickAlive (w : World) (a b : Nat) :
    (cellSeq w.width w.height).countP
        (fun p => (w.tick).1.isAlive p.1 p.2 && decide (adjacentCells p.1 p.2 a b)) +
      w.deadList.countP (fun p => decide (adjacentCells p.1 p.2 a b)) =
    (cellSeq w.width w.height).countP
        (fun p => w.isAlive p.1 p.2 && decide (adjacentCells p.1 p.2 a b)) +
      w.livingList.countP (fun p => decide (adjacentCells p.1 p.2 a b)) := by
  have h1 : (cellSeq w.width w.height).countP
      (fun p => (w.tick).1.isAlive p.1 p.2 && decide (adjacentCells p.1 p.2 a b)) =
      (cellSeq w.width w.height).countP
        (fun p => (decide (p ∈ w.livingList) && decide (adjacentCells p.1 p.2 a b)) ||
          ((w.isAlive p.1 p.2 && !decide (p ∈ w.deadList)) && decide (adjacentCells p.1 p.2 a b))) := by
    refine List.countP_congr ?_
    intro q _
    rw [tick_isAlive_eq]
    simp only [Bool.and_eq_true, Bool.or_eq_true, Bool.not_eq_true', decide_eq_true_eq,
      decide_eq_false_iff_not]
    tauto
  have h2 : (cellSeq w.width w.height).countP
      (fun p => (decide (p ∈ w.livingList) && decide (adjacentCells p.1 p.2 a b)) ||
        ((w.isAlive p.1 p.2 && !decide (p ∈ w.deadList)) && decide (adjacentCells p.1 p.2 a b))) =
      (cellSeq w.width w.height).countP
        (fun p => decide (p ∈ w.livingList) && decide (adjacentCells p.1 p.2 a b)) +
      (cellSeq w.width w.height).countP
        (fun p => (w.isAlive p.1 p.2 && !decide (p ∈ w.deadList)) && decide (adjacentCells p.1 p.2 a b)) := by
    refine countP_or_disjoint _ _ _ ?_
    intro q _ hqb
    obtain ⟨hqB, hqA⟩ := hqb
    simp only [Bool.and_eq_true, decide_eq_true_eq] at hqB hqA
    have := ((mem_livingList w q).mp hqB.1).2.2.1
    rw [this] at hqA
    exact Bool.false_ne_true hqA.1.1
  have h3 : (cellSeq w.width w.height).countP
      (fun p => decide (p ∈ w.livingList) && decide (adjacentCells p.1 p.2 a b)) =
      w.livingList.countP (fun p => decide (adjacentCells p.1 p.2 a b)) := by
    refine countP_mem_sub _ _ _ (cellSeq_nodup _ _) (livingList_nodup w) ?_
    intro q hq
    have h := (mem_livingList w q).mp hq
    exact (mem_cellSeq _ _ q).mpr ⟨h.1, h.2.1⟩
  have h4 : (cellSeq w.width w.height).countP
      (fun p => w.isAlive p.1 p.2 && decide (adjacentCells p.1 p.2 a b)) =
      (cellSeq w.width w.height).countP
        (fun p => (w.isAlive p.1 p.2 && decide (adjacentCells p.1 p.2 a b)) && decide (p ∈ w.deadList)) +
      (cellSeq w.width w.height).countP
        (fun p => (w.isAlive p.1 p.2 && decide (adjacentCells p.1 p.2 a b)) && !decide (p ∈ w.deadList)) :=
    countP_split _ _ _
  have h5 : (cellSeq w.width w.height).countP
      (fun p => (w.isAlive p.1 p.2 && decide (adjacentCells p.1 p.2 a b)) && decide (p ∈ w.deadList)) =
      (cellSeq w.width w.height).countP
        (fun p => decide (p ∈ w.deadList) && decide (adjacentCells p.1 p.2 a b)) := by
    refine List.countP_congr ?_
    intro q _
    simp only [Bool.and_eq_true, decide_eq_true_eq]
    constructor
    · rintro ⟨⟨_, hadj⟩, hD⟩
      exact ⟨hD, hadj⟩
    · rintro ⟨hD, hadj⟩
      exact ⟨⟨((mem_deadList w q).mp hD).2.2.1, hadj⟩, hD⟩
  have h6 : (cellSeq w.width w.height).countP
      (fun p => decide (p ∈ w.deadList) && decide (adjacentCells p.1 p.2 a b)) =
      w.deadList.countP (fun p => decide (adjacentCells p.1 p.2 a b)) := by
    refine countP_mem_sub _ _ _ (cellSeq_nodup _ _) (deadList_nodup w) ?_
    intro q hq
    have h := (mem_deadList w q).mp hq
    exact (mem_cellSeq _ _ q).mpr ⟨h.1, h.2.1⟩
  have h7 : (cellSeq w.width w.height).countP
      (fun p => (w.isAlive p.1 p.2 && !decide (p ∈ w.deadList)) && decide (adjacentCells p.1 p.2 a b)) =
      (cellSeq w.width w.height).countP
        (fun p => (w.isAlive p.1 p.2 && decide (adjacentCells p.1 p.2 a b)) && !decide (p ∈ w.deadList)) := by
    refine List.countP_congr ?_
    intro q _
    simp only [Bool.and_eq_true, Bool.not_eq_true', decide_eq_false_iff_not]
    tauto
  omega

/-- Post-condition of `tick`: the neighbour-count invariant is preserved. -/
theorem tick_CountInv (w : World) (h : CountInv w) : CountInv (w.tick).1 := by
  intro a ha b hb
  rw [tick_width] at ha
  rw [tick_height] at hb
  have hLmem : ∀ p : Point, p ∈ cellSeq w.width w.height ↔
      p.1 < (w.tick).1.width ∧ p.2 < (w.tick).1.height := by
    intro p
    rw [tick_width, tick_height]
    exact mem_cellSeq _ _ p
  have hrhs := countP_adjacent_eq_liveNeighbours (w.tick).1 (cellSeq w.width w.height)
    (cellSeq_nodup _ _) hLmem a b
  have hlhs := countP_adjacent_eq_liveNeighbours w (cellSeq w.width w.height)
    (cellSeq_nodup _ _) (fun p => mem_cellSeq _ _ p) a b
  have hkey := countP_tickAlive w a b
  have hw := h a ha b hb
  unfold World.neighbourCount at hw ⊢
  rw [tick_counts, hw, countP_writesSlot_eq_adjacent_plain, countP_writesSlot_eq_adjacent_plain,
    ← hrhs, ← hlhs]
  omega

/-! ### Claim C2: the neighbour-count invariant -/

/-- Every reachable World — freshly constructed, or after any number of
completed ticks — satisfies the neighbour-count invariant. -/
lemma reachable_CountInv (w : World) (hw : Reachable w) : CountInv w := by
  induction hw with
  | create wd ht gen => exact create_CountInv wd ht gen
  | tick w hw ih => exact tick_CountInv w ih

/-- C2: for every World, after construction and after every completed
tick, and for every in-range cell `(x, y)`, `neighbourCount x y` equals
the number of the at most 8 in-grid neighbouring positions whose state is
alive; out-of-grid positions contribute nothing. -/
theorem neighbourCount_invariant (w : World) (hw : Reachable w) :
    ∀ x, x < w.width → ∀ y, y < w.height →
      w.neighbourCount x y = (w.liveNeighbours x y : Int) :=
  reachable_CountInv w hw

theorem neighbourCount_invariant_witness :
    Reachable (World.create 2 2 (fun _ _ => 1)) ∧
      (World.create 2 2 (fun _ _ => 1)).neighbourCount 0 0 =
        ((World.create 2 2 (fun _ _ => 1)).liveNeighbours 0 0 : Int) :=
  ⟨Reachable.create 2 2 _,
    neighbourCount_invariant _ (Reachable.create 2 2 _) 0 (by decide) 0 (by decide)⟩

/-! ### Claim C1: tick refines the B3/S23 reference step -/

/-- The standard non-wrapping B3/S23 reference step, written from the
spec's words and computed from scratch on the pre-tick state: a live
cell stays alive exactly when it has 2 or 3 live in-grid neighbours, a
dead cell becomes alive exactly when it has exactly 3. -/
def specLifeStep (w : World) (x y : Nat) : Bool :=
  if w.isAlive x y then
    decide (w.liveNeighbours x y = 2) || decide (w.liveNeighbours x y = 3)
  else
    decide (w.liveNeighbours x y = 3)

/-- C1: on any World satisfying the neighbour-count invariant, one tick
transforms the cell state exactly as the reference B3/S23 step computed
from scratch on the pre-tick configuration. -/
theorem tick_refines_specLifeStep (w : World) (h : CountInv w) (x y : Nat)
    (hx : x < w.width) (hy : y < w.height) :
    (w.tick).1.isAlive x y = specLifeStep w x y := by
  have hc := h x hx y hy
  rw [tick_isAlive]
  unfold specLifeStep
  cases hA : w.isAlive x y with
  | false =>
    have hnD : (x, y) ∉ w.deadList := fun hD => by
      have hAl := ((mem_deadList w (x, y)).mp hD).2.2.1
      rw [hA] at hAl
      exact Bool.false_ne_true hAl
    rw [if_neg hnD]
    by_cases hB : (x, y) ∈ w.livingList
    · rw [if_pos hB]
      have h3 := ((mem_livingList w (x, y)).mp hB).2.2.2
      rw [hc] at h3
      have h3n : w.liveNeighbours x y = 3 := by exact_mod_cast h3
      simp [hA, h3n]
    · rw [if_neg hB]
      have hne : w.neighbourCount x y ≠ 3 :=
        fun h3 => hB ((mem_livingList w (x, y)).mpr ⟨hx, hy, hA, h3⟩)
      rw [hc] at hne
      have h3n : w.liveNeighbours x y ≠ 3 := by
        intro h3
        rw [h3] at hne
        exact hne rfl
      simp [hA, h3n]
  | true =>
    have hnB : (x, y) ∉ w.livingList := fun hB => by
      have hAl := ((mem_livingList w (x, y)).mp hB).2.2.1
      rw [hA] at hAl
      exact Bool.false_ne_true hAl.symm
    by_cases hD : (x, y) ∈ w.deadList
    · rw [if_pos hD]
      have hcnt := ((mem_deadList w (x, y)).mp hD).2.2.2
      rw [hc] at hcnt
      have h2 : w.liveNeighbours x y ≠ 2 := by omega
      have h3 : w.liveNeighbours x y ≠ 3 := by omega
      simp [hA, h2, h3]
    · rw [if_neg hD, if_neg hnB]
      have hcnt : ¬(w.neighbourCount x y < 2 ∨ w.neighbourCount x y > 3) :=
        fun hor => hD ((mem_deadList w (x, y)).mpr ⟨hx, hy, hA, hor⟩)
      rw [hc] at hcnt
      have h23 : w.liveNeighbours x y = 2 ∨ w.liveNeighbours x y = 3 := by omega
      rcases h23 with h | h <;> simp [hA, h]

/-- The blinker initial grid: exactly the cells (1,0), (1,1), (1,2) alive. -/
def blinkerGen : Nat → Nat → Nat :=
  fun r c => if c = 1 ∧ r ≤ 2 then 1 else 0

set_option maxRecDepth 100000 in
theorem tick_refines_specLifeStep_witness :
    CountInv (World.create 5 5 blinkerGen) ∧ 1 < (World.create 5 5 blinkerGen).width ∧
      1 < (World.create 5 5 blinkerGen).height ∧
      (World.create 5 5 blinkerGen).tick.1.isAlive 1 1 =
        specLifeStep (World.create 5 5 blinkerGen) 1 1 :=
  ⟨by decide, by decide, by decide,
    tick_refines_specLifeStep _ (by decide) 1 1 (by decide) (by decide)⟩

/-! ### Claim C3: delta completeness -/

/-- C3: a cell changes alive/dead status across one tick exactly when it
is reported in that tick's births or deaths: no change escapes
reporting, no reported change is spurious. -/
theorem tick_delta_complete (w : World) (x y : Nat) :
    ((w.tick).1.isAlive x y ≠ w.isAlive x y) ↔
      ((x, y) ∈ (w.tick).2.births ∨ (x, y) ∈ (w.tick).2.deaths) := by
  rw [tick_snd]
  show _ ↔ ((x, y) ∈ w.livingList ∨ (x, y) ∈ w.deadList)
  rw [tick_isAlive]
  by_cases hD : (x, y) ∈ w.deadList
  · have hA := ((mem_deadList w (x, y)).mp hD).2.2.1
    simp [hD, hA]
  · by_cases hB : (x, y) ∈ w.livingList
    · have hA := ((mem_livingList w (x, y)).mp hB).2.2.1
      simp [hD, hB, hA]
    · simp [hD, hB]

/-! ### Claim C4: cell values -/

set_option maxRecDepth 100000 in
/-- C4 counterexample: starting from the blinker, the cell (1, 0) is
reborn during the second tick and its stored state value is 2, not 1:
`giveLife` stores `age + 1`, so CellState entries are not restricted to
the set containing 0 and 1. -/
theorem cellState_zero_one_counterexample :
    (World.create 5 5 blinkerGen).tick.1.tick.1.state 0 1 = 2 := by decide

/-- C4 amended: `giveLife` stores exactly `age + 1` (which equals 1 only
for births applied in the first generation) in the cell it brings to
life, leaving it alive, and `takeLife` stores exactly 0. -/
theorem giveLife_stores_age_succ (w : World) (p : Point) :
    (w.giveLife p).state p.2 p.1 = w.age + 1 ∧
      (w.giveLife p).isAlive p.1 p.2 = true ∧
      (w.takeLife p).state p.2 p.1 = 0 := by
  refine ⟨?_, ?_, ?_⟩
  · rw [giveLife_state, if_pos ⟨rfl, rfl⟩]
  · unfold World.isAlive
    rw [giveLife_state, if_pos ⟨rfl, rfl⟩]
    simp
  · rw [takeLife_state, if_pos ⟨rfl, rfl⟩]

/-! ### Claim C5: no dimension validation exists -/

/-- C5 counterexample: construction with width 0 and height 0 does not
fail: it returns a World with those dimensions, and that World even
ticks, producing an empty change set.  No InvalidDimension error (nor
any other dimension check) exists in the source. -/
theorem create_no_dimension_check_counterexample :
    (World.create 0 0 (fun _ _ => 0)).width = 0 ∧
      (World.create 0 0 (fun _ _ => 0)).height = 0 ∧
      (World.create 0 0 (fun _ _ => 0)).tick.2 = ⟨[], []⟩ := by decide

/-- C5 amended: construction is total and never reports an error; for
every width and height, including non-positive ones, it succeeds and
stores the given dimensions unchanged. -/
theorem create_total (wd ht : Nat) (gen : Nat → Nat → Nat) :
    (World.create wd ht gen).width = wd ∧ (World.create wd ht gen).height = ht :=
  ⟨create_width wd ht gen, create_height wd ht gen⟩

/-! ### Claim C6: the blinker oscillates with period 2 -/

/-- The list of live cells of a World, in row-major order. -/
def liveCells (w : World) : List Point :=
  (cellSeq w.width w.height).filter (fun p => w.isAlive p.1 p.2)

set_option maxRecDepth 100000 in
/-- C6: on a 5×5 otherwise-dead grid, the blinker (1,0), (1,1), (1,2)
transitions on the first tick to exactly (0,1), (1,1), (2,1), and on the
second tick back to exactly (1,0), (1,1), (1,2). -/
theorem blinker_oscillates :
    liveCells (World.create 5 5 blinkerGen) = [(1, 0), (1, 1), (1, 2)] ∧
      liveCells (World.create 5 5 blinkerGen).tick.1 = [(0, 1), (1, 1), (2, 1)] ∧
      liveCells (World.create 5 5 blinkerGen).tick.1.tick.1 = [(1, 0), (1, 1), (1, 2)] :=
  ⟨by decide, by decide, by decide⟩

/-! ### Claim C7: deaths-then-births commutes with births-then-deaths -/

/-- C7: for the birth and death lists recorded by the decision scan,
applying all deaths via `takeLife` and then all births via `giveLife`
produces exactly the same CellState grid and NeighbourCount grid as
applying all births first and then all deaths. -/
theorem births_deaths_commute (w : World) :
    ((w.livingList.foldl World.giveLife (w.deadList.foldl World.takeLife w)).state =
      (w.deadList.foldl World.takeLife (w.livingList.foldl World.giveLife w)).state) ∧
    ((w.livingList.foldl World.giveLife (w.deadList.foldl World.takeLife w)).neighbourCounts =
      (w.deadList.foldl World.takeLife (w.livingList.foldl World.giveLife w)).neighbourCounts) := by
  constructor
  · funext r c
    rw [foldl_giveLife_state, foldl_takeLife_state, foldl_takeLife_age,
      foldl_takeLife_state, foldl_giveLife_state]
    by_cases hD : (c, r) ∈ w.deadList
    · have hnB : (c, r) ∉ w.livingList := fun hB => living_not_dead w (c, r) hB hD
      simp [hD, hnB]
    · by_cases hB : (c, r) ∈ w.livingList <;> simp [hD, hB]
  · funext r c
    rw [foldl_giveLife_counts, foldl_takeLife_counts, foldl_takeLife_counts,
      foldl_giveLife_counts]
    ring

/-! ### Claim C8: neighbourCount reads and their range -/

/-- C8: on every reachable World and in-range cell, `neighbourCount`
returns an integer between 0 and 8, reads exactly the padded slot at row
`y+1`, column `x+1` — which lies strictly inside the padded grid, never
on the padding ring — and counts no fictitious out-of-grid neighbour. -/
theorem neighbourCount_range (w : World) (hw : Reachable w) (x y : Nat)
    (hx : x < w.width) (hy : y < w.height) :
    0 ≤ w.neighbourCount x y ∧ w.neighbourCount x y ≤ 8 ∧
      w.neighbourCount x y = w.neighbourCounts (y + 1) (x + 1) ∧
      w.neighbourCount x y = (w.liveNeighbours x y : Int) ∧
      (1 ≤ x + 1 ∧ x + 1 ≤ w.width) ∧ (1 ≤ y + 1 ∧ y + 1 ≤ w.height) := by
  have hinv := reachable_CountInv w hw x hx y hy
  have hle : w.liveNeighbours x y ≤ 8 := by
    have h1 : w.liveNeighbours x y ≤ offsets.length := List.countP_le_length _
    simpa [offsets] using h1
  refine ⟨?_, ?_, rfl, hinv, ⟨by omega, by omega⟩, ⟨by omega, by omega⟩⟩
  · rw [hinv]
    exact Int.natCast_nonneg _
  · rw [hinv]
    exact_mod_cast hle

set_option maxRecDepth 100000 in
theorem neighbourCount_range_witness :
    Reachable (World.create 5 5 blinkerGen) ∧ 0 < (World.create 5 5 blinkerGen).width ∧
      0 < (World.create 5 5 blinkerGen).height ∧
      (0 ≤ (World.create 5 5 blinkerGen).neighbourCount 0 0 ∧
        (World.create 5 5 blinkerGen).neighbourCount 0 0 ≤ 8 ∧
        (World.create 5 5 blinkerGen).neighbourCount 0 0 =
          (World.create 5 5 blinkerGen).neighbourCounts 1 1 ∧
        (World.create 5 5 blinkerGen).neighbourCount 0 0 =
          ((World.create 5 5 blinkerGen).liveNeighbours 0 0 : Int) ∧
        (1 ≤ 0 + 1 ∧ 0 + 1 ≤ (World.create 5 5 blinkerGen).width) ∧
        (1 ≤ 0 + 1 ∧ 0 + 1 ≤ (World.create 5 5 blinkerGen).height)) :=
  ⟨Reachable.create 5 5 _, by decide, by decide,
    neighbourCount_range _ (Reachable.create 5 5 _) 0 0 (by decide) (by decide)⟩

/-! ### Claim C9: determinism -/

/-- C9: two Worlds constructed with the same dimensions and initial cell
values (bypassing the random generator: any two generators that agree on
every in-grid cell) produce identical change-set sequences over any
number of ticks. -/
theorem run_deterministic (wd ht : Nat) (f g : Nat → Nat → Nat) (n : Nat)
    (h : ∀ r, r < ht → ∀ c, c < wd → f r c = g r c) :
    (World.create wd ht f).run n = (World.create wd ht g).run n := by
  have heq : World.create wd ht f = World.create wd ht g := by
    unfold World.create
    have hst : (fun r c => if r < ht ∧ c < wd then f r c else 0) =
        (fun r c => if r < ht ∧ c < wd then g r c else 0) := by
      funext r c
      by_cases hrc : r < ht ∧ c < wd
      · rw [if_pos hrc, if_pos hrc, h r hrc.1 c hrc.2]
      · rw [if_neg hrc, if_neg hrc]
    rw [hst]
  rw [heq]

set_option maxRecDepth 100000 in
theorem run_deterministic_witness :
    (∀ r, r < 3 → ∀ c, c < 3 →
      (fun u v => if u < 3 ∧ v < 3 then u + v else 7) r c =
        (fun u v => if u ≤ 2 ∧ v ≤ 2 then u + v else 9) r c) ∧
    (World.create 3 3 (fun u v => if u < 3 ∧ v < 3 then u + v else 7)).run 2 =
      (World.create 3 3 (fun u v => if u ≤ 2 ∧ v ≤ 2 then u + v else 9)).run 2 :=
  ⟨by decide, run_deterministic 3 3 _ _ 2 (by decide)⟩

/-! ### Claim C10: well-formedness of the reported change lists -/

/-- C10: in every tick's change set, the births and the deaths lists are
disjoint, duplicate-free, contain only in-range coordinates, and list
their coordinates in row-major scan order (increasing y, then x). -/
theorem tick_changes_wellFormed (w : World) :
    ((w.tick).2.births.Pairwise rowLt ∧ (w.tick).2.deaths.Pairwise rowLt) ∧
      ((w.tick).2.births.Nodup ∧ (w.tick).2.deaths.Nodup) ∧
      (∀ p ∈ (w.tick).2.births, p ∉ (w.tick).2.deaths) ∧
      (∀ p ∈ (w.tick).2.births, p.1 < w.width ∧ p.2 < w.height) ∧
      (∀ p ∈ (w.tick).2.deaths, p.1 < w.width ∧ p.2 < w.height) := by
  rw [tick_snd]
  refine ⟨⟨livingList_pairwise w, deadList_pairwise w⟩,
    ⟨livingList_nodup w, deadList_nodup w⟩,
    fun p hp => living_not_dead w p hp, fun p hp => ?_, fun p hp => ?_⟩
  · have h := (mem_livingList w p).mp hp
    exact ⟨h.1, h.2.1⟩
  · have h := (mem_deadList w p).mp hp
    exact ⟨h.1, h.2.1⟩
